import Mathlib

/-!
# Waybar sway IPC client

A shallow embedding of `src/modules/sway/ipc/client.cpp` and
`include/util/bit_cast.hpp`, followed by the properties of the wire format,
of the receive and send paths, of the subscription handshake, of the socket
path lookup and of the socket address that `Ipc::open` builds.

The operating system is modelled by explicit state: a connected socket is a
script of what the peer delivers to successive `::recv` calls, a script of
what successive `::send` calls accept, and the log of the bytes transmitted.
Loops that the source does not bound are given a budget of iterations; the
outcome `running` says that the loop is still going when the budget ends, the
outcome `overrun` that the call stored past the storage it had reserved.
-/

namespace Waybar

/-- One `char` of a buffer, as its unsigned value. -/
abbrev Byte := Fin 256

/-- Byte order of the host: `std::memcpy` between a `uint32_t` and a `char`
buffer moves the object representation, which is the host's. -/
inductive ByteOrder where
  | little
  | big
deriving DecidableEq, Repr

/-- The `n` low-order base-256 digits of `x`, least significant first. -/
def digits256 : Nat → Nat → List Byte
  | 0, _ => []
  | n + 1, x => Fin.ofNat (x % 256) :: digits256 n (x / 256)

/-- Value of a base-256 digit string whose first digit is the least
significant one. -/
def ofDigits256 : List Byte → Nat
  | [] => 0
  | b :: bs => b.val + 256 * ofDigits256 bs

/-- The four bytes `std::memcpy(dst, &x, sizeof(uint32_t))` writes for a
`uint32_t` holding `x` (the value is reduced modulo 2^32 by the type). -/
def memcpy_from_u32 (host : ByteOrder) (x : Nat) : List Byte :=
  match host with
  | .little => digits256 4 (x % 4294967296)
  | .big => (digits256 4 (x % 4294967296)).reverse

/-- The byte at offset `i` from a pointer into a buffer (zero past its end). -/
def byteAt (src : List Byte) (i : Nat) : Byte := src.getD i 0

/-- The call `util::bit_cast_from_ptr<uint32_t>(from)`: copy `sizeof(uint32_t)` bytes
starting at `from` into a `uint32_t`. -/
def bit_cast_from_ptr (host : ByteOrder) (src : List Byte) : Nat :=
  let raw := [byteAt src 0, byteAt src 1, byteAt src 2, byteAt src 3]
  match host with
  | .little => ofDigits256 raw
  | .big => ofDigits256 raw.reverse

/-- Modelled from the spec: `modules/sway/ipc/client.hpp`, which declares
`ipc_magic_`, is not among the sources; the spec fixes a constant magic of 6
bytes, here the characters `i3-ipc` of the sway protocol. -/
def ipc_magic_ : List Byte := [105, 51, 45, 105, 112, 99]

/-- Modelled from the spec: the header is the magic followed by two 4-byte
fields (6 + 4 + 4 = 14 bytes); the declaration is in the missing
`client.hpp`. -/
def ipc_header_size_ : Nat := ipc_magic_.length + 8

/-- Modelled from the spec: the reserved "subscribe" message type, declared in
the missing protocol header (value 2 in the sway protocol). -/
def IPC_SUBSCRIBE : Nat := 2

/-- Modelled from the spec: `struct ipc_response` of the missing `client.hpp`,
a frame with its declared size, its type tag and its payload as a
`std::string`. -/
structure ipc_response where
  size : Nat
  type : Nat
  payload : List Byte
deriving DecidableEq, Repr

/-- The `std::runtime_error`s thrown by the client. -/
inductive Error where
  | failedToGetSocketPath
  | unableToOpenUnixSocket
  | unableToConnect
  | unableToReceiveHeader
  | invalidMagic
  | unableToReceivePayload
  | unableToSendHeader
  | unableToSendPayload
  | unableToSubscribe
deriving DecidableEq, Repr

/-- The message each `std::runtime_error` is constructed with. -/
def Error.what : Error → String
  | .failedToGetSocketPath => "Failed to get socket path"
  | .unableToOpenUnixSocket => "Unable to open Unix socket"
  | .unableToConnect => "Unable to connect to Sway"
  | .unableToReceiveHeader => "Unable to receive IPC header"
  | .invalidMagic => "Invalid IPC magic"
  | .unableToReceivePayload => "Unable to receive IPC payload"
  | .unableToSendHeader => "Unable to send IPC header"
  | .unableToSendPayload => "Unable to send IPC payload"
  | .unableToSubscribe => "Unable to subscribe ipc event"

/-- What the peer side of a socket holds for one `::recv` call: bytes that
arrived together, or a failure of the call. -/
inductive RecvEvent where
  | data (bytes : List Byte)
  | error
deriving DecidableEq, Repr

/-- What one `::send` call does: take at most `k` of the bytes offered, or
fail. -/
inductive SendEvent where
  | accept (k : Nat)
  | error
deriving DecidableEq, Repr

/-- A connected stream socket. `incoming` is consumed by `::recv`; once it is
empty the peer has closed and every `::recv` returns 0. `outgoing` is consumed
by `::send`; once it is empty every `::send` takes all the bytes offered.
`sent` logs the bytes transmitted so far. -/
structure Socket where
  incoming : List RecvEvent
  outgoing : List SendEvent
  sent : List Byte
deriving DecidableEq, Repr

/-- The bytes of one receive event. -/
def RecvEvent.bytes : RecvEvent → List Byte
  | .data bs => bs
  | .error => []

/-- The bytes the peer has delivered and the client has not read yet. -/
def Socket.unread (s : Socket) : List Byte := (s.incoming.map RecvEvent.bytes).flatten

/-- The call `::recv(fd, buf, len, 0)`: the return value, the bytes stored at `buf`, and
the socket afterwards. At most `len` bytes of the first pending chunk are
delivered; what is left of the chunk stays pending. -/
def Posix.recv (s : Socket) (len : Nat) : Int × List Byte × Socket :=
  match s.incoming with
  | [] => (0, [], s)
  | .error :: rest => (-1, [], { s with incoming := rest })
  | .data bs :: rest =>
    let got := bs.take len
    let left := bs.drop len
    (got.length, got,
      { s with incoming := if left.isEmpty then rest else .data left :: rest })

/-- The call `::send(fd, buf, len, 0)`: the return value and the socket afterwards. -/
def Posix.send (s : Socket) (bytes : List Byte) : Int × Socket :=
  match s.outgoing with
  | [] => (bytes.length, { s with sent := s.sent ++ bytes })
  | .error :: rest => (-1, { s with outgoing := rest })
  | .accept k :: rest =>
    ((bytes.take k).length, { s with outgoing := rest, sent := s.sent ++ bytes.take k })

/-- Result of a call: a value, an exception, still looping when the iteration
budget ended, or completed after storing past the storage that `reserve` was
asked for (the behaviour of the source is undefined then, and no value is
attributed to the call). The socket is the state the call leaves behind. -/
inductive Outcome (α : Type) where
  | ok (value : α) (sock : Socket)
  | throw (e : Error) (sock : Socket)
  | running
  | overrun
deriving DecidableEq, Repr

/-- The `std::string(const char*)` constructor: the bytes before the first NUL. -/
def cstr (mem : List Byte) : List Byte := mem.takeWhile (fun b => b != 0)

/-- The two receive loops of `Ipc::recv` (lines 72-78 and 91-97):
`while (total < want) { res = ::recv(fd, buf + total, want - total, 0);
if (failed res) throw e; total += res; }`. They differ in `failed` and in the
exception. `fuel` bounds the number of `::recv` calls. -/
def recvLoop (failed : Int → Bool) (e : Error) (want : Nat) :
    Nat → Socket → List Byte → Nat → Outcome (List Byte)
  | fuel, fd, buf, total =>
    if total < want then
      match fuel with
      | 0 => .running
      | fuel + 1 =>
        match Posix.recv fd (want - total) with
        | (res, bytes, fd') =>
          if failed res then .throw e fd'
          else recvLoop failed e want fuel fd' (buf ++ bytes) (total + res.toNat)
    else .ok buf fd

/-- Lines 108-112 of `Ipc::send`: the magic, then the object representation of
`payload_size`, then that of `type`. -/
def encode_header (host : ByteOrder) (payload_size type : Nat) : List Byte :=
  ipc_magic_ ++ memcpy_from_u32 host payload_size ++ memcpy_from_u32 host type

/-- Lines 80-89 of `Ipc::recv`: compare the first `ipc_magic_.size()` bytes with
the magic, then read the two `uint32_t` fields behind it. -/
def decode_header (host : ByteOrder) (header : List Byte) : Except Error (Nat × Nat) :=
  let magic := header.take ipc_magic_.length
  if magic ≠ ipc_magic_ then .error .invalidMagic
  else
    let data32_begin := header.drop ipc_magic_.length
    let size := bit_cast_from_ptr host data32_begin
    let type := bit_cast_from_ptr host (data32_begin.drop 4)
    .ok (size, type)

/-- The method `Ipc::recv(fd)`. The header loop stores `ipc_header_size_` bytes
into the `ipc_header_size_` bytes reserved for `header`. For the payload,
`payload.reserve(size + 1)` computes `size + 1` in `uint32_t`, so the storage
asked for is `(size + 1) mod 2^32` bytes, while the loop stores `size` bytes and
`payload[size] = 0` stores one more behind them: when the sum has wrapped, a
call that gets that far has stored past the reserved storage. -/
def Ipc.recv (host : ByteOrder) (fuel : Nat) (fd : Socket) : Outcome ipc_response :=
  match recvLoop (fun res => decide (res ≤ 0)) .unableToReceiveHeader ipc_header_size_
      fuel fd [] 0 with
  | .running => .running
  | .overrun => .overrun
  | .throw e fd1 => .throw e fd1
  | .ok header fd1 =>
    match decode_header host header with
    | .error e => .throw e fd1
    | .ok (size, type) =>
      -- payload.reserve(size + 1);
      let reserved := (size + 1) % 4294967296
      match recvLoop (fun res => decide (res < 0)) .unableToReceivePayload size
          fuel fd1 [] 0 with
      | .running => .running
      | .overrun => .overrun
      | .throw e fd2 => .throw e fd2
      | .ok payload fd2 =>
        -- payload[size] = 0; return { size, type, &payload.front() };
        if reserved ≤ size then .overrun
        else .ok ⟨size, type, cstr (payload ++ [0])⟩ fd2

/-- The header `Ipc::send` builds for its arguments (lines 106-112):
`const uint32_t payload_size = payload.size();` and the three `memcpy`s. -/
def Ipc.send_header (host : ByteOrder) (type : Nat) (payload : List Byte) : List Byte :=
  let payload_size := payload.length % 4294967296
  encode_header host payload_size type

/-- The transmitting half of `Ipc::send` (lines 106-119): build the header,
one `::send` for it, one `::send` for the payload. -/
def Ipc.send_request (host : ByteOrder) (fd : Socket) (type : Nat) (payload : List Byte) :
    Outcome Unit :=
  let header := Ipc.send_header host type payload
  match Posix.send fd header with
  | (res, fd1) =>
    if res = -1 then .throw .unableToSendHeader fd1
    else
      match Posix.send fd1 payload with
      | (res2, fd2) =>
        if res2 = -1 then .throw .unableToSendPayload fd2
        else .ok () fd2

/-- The method `Ipc::send(fd, type, payload)`: transmit the request, then
`return recv(fd)`. -/
def Ipc.send (host : ByteOrder) (fuel : Nat) (fd : Socket) (type : Nat) (payload : List Byte) :
    Outcome ipc_response :=
  match Ipc.send_request host fd type payload with
  | .running => .running
  | .overrun => .overrun
  | .throw e fd1 => .throw e fd1
  | .ok _ fd1 => Ipc.recv host fuel fd1

/-- The client object: its command socket and its event socket. -/
structure Ipc where
  fd_ : Socket
  fd_event_ : Socket
deriving DecidableEq, Repr

/-- The method `Ipc::sendCmd(type, payload)`; the socket in the outcome is `fd_`. -/
def Ipc.sendCmd (host : ByteOrder) (fuel : Nat) (self : Ipc) (type : Nat)
    (payload : List Byte) : Outcome ipc_response :=
  Ipc.send host fuel self.fd_ type payload

/-- The literal that `Ipc::subscribe` compares the acknowledgement with: an
opening brace, `"success": true` and a closing brace, 17 characters. -/
def subscribe_success : List Byte :=
  [123, 34, 115, 117, 99, 99, 101, 115, 115, 34, 58, 32, 116, 114, 117, 101, 125]

/-- The method `Ipc::subscribe(payload)`; the socket in the outcome is `fd_event_`. -/
def Ipc.subscribe (host : ByteOrder) (fuel : Nat) (self : Ipc) (payload : List Byte) :
    Outcome Unit :=
  match Ipc.send host fuel self.fd_event_ IPC_SUBSCRIBE payload with
  | .running => .running
  | .overrun => .overrun
  | .throw e fd => .throw e fd
  | .ok res fd =>
    if res.payload ≠ subscribe_success then .throw .unableToSubscribe fd
    else .ok () fd

/-- The method `Ipc::handleEvent()`. -/
def Ipc.handleEvent (host : ByteOrder) (fuel : Nat) (self : Ipc) : Outcome ipc_response :=
  Ipc.recv host fuel self.fd_event_

/-- Whether a call returned a value. -/
def Outcome.isOk {α : Type} : Outcome α → Bool
  | .ok _ _ => true
  | _ => false

/-- The exception a call ended with, if it ended with one. -/
def Outcome.thrown {α : Type} : Outcome α → Option Error
  | .throw e _ => some e
  | _ => none

/-- The wire bytes of one frame: the header for (`payload.length`, `type`)
followed by the payload. -/
def wire (host : ByteOrder) (type : Nat) (payload : List Byte) : List Byte :=
  encode_header host payload.length type ++ payload

/-! ## Socket path lookup -/

/-- The characters one `fgets` call with room for `n` characters takes from a
stream: up to and including the first newline, at most `n`. -/
def readLine : Nat → List Byte → List Byte
  | 0, _ => []
  | _, [] => []
  | n + 1, c :: cs => if c = 10 then [c] else c :: readLine n cs

/-- The call `fgets(buf, size, in)`: `none` at end of file (the buffer is left
alone), otherwise the buffer afterwards (the line, a NUL, and the old contents
behind them) and the rest of the stream. -/
def fgets (buf : List Byte) (size : Nat) (stream : List Byte) :
    Option (List Byte × List Byte) :=
  match stream with
  | [] => none
  | _ :: _ =>
    let line := readLine (size - 1) stream
    some (line ++ [0] ++ buf.drop (line.length + 1), stream.drop line.length)

/-- Lines 36-38 of `Ipc::getSocketPath`:
`while (fgets(buf, sizeof(buf), in) != nullptr) str_buf.append(buf, sizeof(buf));`
with `sizeof(buf) = 512`. Every call that does not hit the end of the stream
takes at least one character, so a budget of the stream length is never
exhausted. -/
def fgetsLoop : Nat → List Byte → List Byte → List Byte → List Byte
  | 0, _, _, str_buf => str_buf
  | fuel + 1, buf, stream, str_buf =>
    match fgets buf 512 stream with
    | none => str_buf
    | some (buf', rest) => fgetsLoop fuel buf' rest (str_buf ++ buf'.take 512)

/-- The method `Ipc::getSocketPath()`. `env` is what `getenv("SWAYSOCK")` points
to (`none` for a null pointer), `popen_out` the standard output of the
discovery command (`none` when `popen` returns a null pointer). `str.back()` of
an empty string, undefined in the source, is taken not to be a newline. -/
def Ipc.getSocketPath (env : Option (List Byte)) (popen_out : Option (List Byte)) :
    Except Error (List Byte) :=
  match env with
  | some v => .ok (cstr (v ++ [0]))
  | none =>
    match popen_out with
    | none => .error .failedToGetSocketPath
    | some out =>
      let str := fgetsLoop out.length (List.replicate 512 0) out []
      if str.getLast? = some 10 then .ok str.dropLast else .ok str

/-- The result the fallback is described to have: the command output with one
trailing newline removed if there is one. -/
def strip_trailing_newline (s : List Byte) : List Byte :=
  if s.getLast? = some 10 then s.dropLast else s

/-! ## Opening the socket -/

/-- The operating system as `Ipc::open` sees it: what
`socket(AF_UNIX, SOCK_STREAM, 0)` returns, and what `::connect` returns for the
contents of `addr.sun_path`. -/
structure Kernel where
  socket : Int
  connect : List Byte → Int

/-- The call `strncpy(dest, src, n)`: the characters of `src` before its NUL,
at most `n` of them, padded with NULs up to `n`; the rest of `dest` is
untouched. -/
def strncpy (dest src : List Byte) (n : Nat) : List Byte :=
  let s := (cstr src).take n
  s ++ List.replicate (n - s.length) 0 ++ dest.drop n

/-- The `addr.sun_path` array that `Ipc::open` hands to `::connect` (lines 50,
56, 57); `sun_path_size` is `sizeof(addr.sun_path)`, a constant of the
platform. -/
def Ipc.open_sun_path (sun_path_size : Nat) (socketPath : List Byte) : List Byte :=
  let zeroed := List.replicate sun_path_size (0 : Byte)
  let copied := strncpy zeroed (socketPath ++ [0]) (sun_path_size - 1)
  copied.set (sun_path_size - 1) 0

/-- The method `Ipc::open(socketPath)`. -/
def Ipc.open (sun_path_size : Nat) (k : Kernel) (socketPath : List Byte) : Except Error Int :=
  let fd := k.socket
  if fd = -1 then .error .unableToOpenUnixSocket
  else if k.connect (Ipc.open_sun_path sun_path_size socketPath) = -1 then
    .error .unableToConnect
  else .ok fd

/-- The 18-byte reply of the end-to-end scenario: an opening brace,
`"workspaces": []` and a closing brace. -/
def reply18 : List Byte :=
  [123, 34, 119, 111, 114, 107, 115, 112, 97, 99, 101, 115, 34, 58, 32, 91, 93, 125]

/-! ## Lemmas on the wire format and the receive loops -/

theorem ipc_magic_length : ipc_magic_.length = 6 := rfl

theorem digits256_length (n x : Nat) : (digits256 n x).length = n := by
  induction n generalizing x with
  | zero => rfl
  | succ n ih => simp [digits256, ih]

theorem memcpy_from_u32_length (host : ByteOrder) (x : Nat) :
    (memcpy_from_u32 host x).length = 4 := by
  cases host <;> simp [memcpy_from_u32, digits256_length]

theorem ofNat_val (x : Nat) : ((Fin.ofNat x : Byte)).val = x % 256 := rfl

theorem bit_cast_memcpy (host : ByteOrder) (x : Nat) (hx : x < 4294967296) (tl : List Byte) :
    bit_cast_from_ptr host (memcpy_from_u32 host x ++ tl) = x := by
  cases host <;>
    simp [bit_cast_from_ptr, memcpy_from_u32, digits256, byteAt, ofDigits256, ofNat_val] <;>
    omega

theorem encode_header_length (host : ByteOrder) (n t : Nat) :
    (encode_header host n t).length = 14 := by
  simp [encode_header, memcpy_from_u32_length, ipc_magic_length]

theorem decode_encode (host : ByteOrder) (n t : Nat) (hn : n < 4294967296) (ht : t < 4294967296) :
    decode_header host (encode_header host n t) = .ok (n, t) := by
  have h1 : (encode_header host n t).take ipc_magic_.length = ipc_magic_ := by
    simp [encode_header, List.append_assoc]
  have h2 : (encode_header host n t).drop ipc_magic_.length
      = memcpy_from_u32 host n ++ memcpy_from_u32 host t := by
    simp [encode_header, List.append_assoc]
  have h3 : (memcpy_from_u32 host n ++ memcpy_from_u32 host t).drop 4 = memcpy_from_u32 host t ++ [] := by
    rw [List.drop_append_of_le_length (by simp [memcpy_from_u32_length])]
    simp [List.drop_eq_nil_of_le, memcpy_from_u32_length]
  simp only [decode_header, h1, h2, h3, bit_cast_memcpy host n hn, bit_cast_memcpy host t ht]
  simp

theorem recvLoop_done (failed : Int → Bool) (e : Error) (want fuel : Nat) (fd : Socket)
    (buf : List Byte) (total : Nat) (h : ¬ total < want) :
    recvLoop failed e want fuel fd buf total = .ok buf fd := by
  cases fuel <;> simp [recvLoop, h]

theorem recvLoop_step (failed : Int → Bool) (e : Error) (want fuel : Nat) (fd : Socket)
    (buf : List Byte) (total : Nat) (h : total < want) :
    recvLoop failed e want (fuel + 1) fd buf total =
      if failed (Posix.recv fd (want - total)).1 then
        .throw e (Posix.recv fd (want - total)).2.2
      else recvLoop failed e want fuel (Posix.recv fd (want - total)).2.2
        (buf ++ (Posix.recv fd (want - total)).2.1)
        (total + (Posix.recv fd (want - total)).1.toNat) := by
  rw [recvLoop]
  simp [h]

theorem recvLoop_stall (failed : Int → Bool) (e : Error) (want : Nat) (fd : Socket)
    (buf : List Byte) (total : Nat) (h : total < want) :
    recvLoop failed e want 0 fd buf total = .running := by
  simp [recvLoop, h]

theorem Posix_recv_data (s : Socket) (c : List Byte) (rest : List RecvEvent) (n : Nat)
    (h : s.incoming = .data c :: rest) :
    Posix.recv s n = (((c.take n).length : Int), c.take n,
      { s with incoming := if (c.drop n).isEmpty then rest else .data (c.drop n) :: rest }) := by
  simp [Posix.recv, h]

theorem Posix_recv_closed (s : Socket) (n : Nat) (h : s.incoming = []) :
    Posix.recv s n = (0, [], s) := by
  simp [Posix.recv, h]

/-- Reading `want - total` more bytes from a socket whose pending chunks are
non-empty and hold at least that many bytes. -/
theorem recvLoop_exact (failed : Int → Bool) (e : Error) (want : Nat)
    (hf : ∀ r : Int, 0 < r → failed r = false) :
    ∀ (fuel : Nat) (cs : List (List Byte)) (tl : List RecvEvent) (s : Socket)
      (buf : List Byte) (total : Nat),
      s.incoming = cs.map RecvEvent.data ++ tl →
      (∀ c ∈ cs, c ≠ []) →
      want - total ≤ cs.flatten.length →
      want - total ≤ fuel →
      ∃ cs' : List (List Byte),
        recvLoop failed e want fuel s buf total
          = .ok (buf ++ cs.flatten.take (want - total))
              { s with incoming := cs'.map RecvEvent.data ++ tl } ∧
        cs'.flatten = cs.flatten.drop (want - total) ∧
        (∀ c ∈ cs', c ≠ []) := by
  intro fuel
  induction fuel with
  | zero =>
    intro cs tl s buf total hin hne hlen hfuel
    have h0 : want - total = 0 := by omega
    refine ⟨cs, ?_, by simp [h0], hne⟩
    rw [recvLoop_done _ _ _ _ _ _ _ (by omega), h0, ← hin]
    simp
  | succ fuel ih =>
    intro cs tl s buf total hin hne hlen hfuel
    by_cases hlt : total < want
    · cases cs with
      | nil =>
        rw [List.flatten_nil, List.length_nil] at hlen; omega
      | cons c rest =>
        have hc : c ≠ [] := hne c (by simp)
        have hcl : 0 < c.length := List.length_pos.mpr hc
        have hrest : ∀ x ∈ rest, x ≠ [] := fun x hx => hne x (by simp [hx])
        have hin' : s.incoming = .data c :: (rest.map RecvEvent.data ++ tl) := by
          simpa using hin
        rw [recvLoop_step _ _ _ _ _ _ _ hlt, Posix_recv_data s c _ _ hin']
        have hpos : (0 : Int) < ((c.take (want - total)).length : Int) := by
          simp; omega
        simp only [hf _ hpos, Bool.false_eq_true, if_false, Int.toNat_ofNat]
        by_cases hcn : c.length ≤ want - total
        · -- the whole chunk is consumed
          have htake : c.take (want - total) = c := List.take_of_length_le hcn
          have hdrop : c.drop (want - total) = [] := List.drop_of_length_le hcn
          simp only [htake, hdrop, List.isEmpty_nil, if_true]
          have hlen' : want - (total + c.length) ≤ rest.flatten.length := by
            rw [List.flatten_cons, List.length_append] at hlen; omega
          obtain ⟨cs', h1, h2, h3⟩ := ih rest tl
            { s with incoming := rest.map RecvEvent.data ++ tl } (buf ++ c)
            (total + c.length) rfl hrest hlen' (by omega)
          refine ⟨cs', ?_, ?_, h3⟩
          · rw [h1]
            have : want - total = c.length + (want - (total + c.length)) := by omega
            rw [List.flatten_cons, this, List.take_append, List.append_assoc]
          · rw [h2, List.flatten_cons]
            have : want - total = c.length + (want - (total + c.length)) := by omega
            rw [this, List.drop_append]
        · -- only the front of the chunk is consumed
          have hcn' : want - total < c.length := by omega
          have hdrop : c.drop (want - total) ≠ [] := by
            intro h
            have := congrArg List.length h
            simp at this; omega
          have hemp : (c.drop (want - total)).isEmpty = false := by
            simpa [List.isEmpty_iff] using hdrop
          have htl : (c.take (want - total)).length = want - total := by
            simp; omega
          simp only [hemp, Bool.false_eq_true, if_false, htl]
          refine ⟨c.drop (want - total) :: rest, ?_, ?_, ?_⟩
          · rw [recvLoop_done _ _ _ _ _ _ _ (by omega)]
            simp [List.take_append_of_le_length (Nat.le_of_lt hcn')]
          · simp [List.drop_append_of_le_length (Nat.le_of_lt hcn')]
          · intro x hx
            rcases List.mem_cons.mp hx with rfl | hx
            · exact hdrop
            · exact hrest x hx
    · have h0 : want - total = 0 := by omega
      refine ⟨cs, ?_, by simp [h0], hne⟩
      rw [recvLoop_done _ _ _ _ _ _ _ hlt, h0, ← hin]
      simp

theorem cstr_append_nul (p : List Byte) : cstr (p ++ [0]) = cstr p := by
  induction p with
  | nil => simp [cstr]
  | cons b bs ih =>
    simp only [cstr] at ih ⊢
    by_cases hb : b = 0
    · simp [hb]
    · simp [List.takeWhile_cons, hb, ih]

theorem cstr_of_no_nul (p : List Byte) (h : ∀ b ∈ p, b ≠ 0) : cstr p = p := by
  simp only [cstr]
  rw [List.takeWhile_eq_self_iff]
  intro b hb
  simpa using h b hb

theorem ipc_header_size_eq : ipc_header_size_ = 14 := rfl

/-- The header loop of `Ipc::recv` fails only on a result that is not positive,
and so does the payload loop. -/
theorem header_failed_pos (r : Int) (h : 0 < r) : decide (r ≤ 0) = false := by
  simp; omega

theorem payload_failed_pos (r : Int) (h : 0 < r) : decide (r < 0) = false := by
  simp; omega

/-- Receiving one frame whose bytes are pending: the frame, unless `size + 1`
has wrapped. -/
theorem recv_frame_wrap (host : ByteOrder) (fuel t : Nat) (p rest : List Byte)
    (cs : List (List Byte)) (tl : List RecvEvent) (s : Socket)
    (hin : s.incoming = cs.map RecvEvent.data ++ tl)
    (hne : ∀ c ∈ cs, c ≠ [])
    (hcs : cs.flatten = encode_header host p.length t ++ (p ++ rest))
    (hp : p.length < 4294967296) (ht : t < 4294967296)
    (hfuel : 14 ≤ fuel) (hfuel' : p.length ≤ fuel) :
    ∃ cs' : List (List Byte),
      Ipc.recv host fuel s
        = (if (p.length + 1) % 4294967296 ≤ p.length then .overrun
           else .ok ⟨p.length, t, cstr p⟩
              { s with incoming := cs'.map RecvEvent.data ++ tl }) ∧
      cs'.flatten = rest ∧ (∀ c ∈ cs', c ≠ []) := by
  have hlen : (encode_header host p.length t).length = 14 := encode_header_length _ _ _
  obtain ⟨cs1, h1, h2, h3⟩ := recvLoop_exact (fun res => decide (res ≤ 0))
    .unableToReceiveHeader ipc_header_size_ header_failed_pos fuel cs tl s [] 0 hin hne
    (by rw [hcs, ipc_header_size_eq]; simp [hlen]) (by rw [ipc_header_size_eq]; omega)
  have htake : cs.flatten.take (ipc_header_size_ - 0) = encode_header host p.length t := by
    rw [hcs, ipc_header_size_eq]
    exact List.take_left' hlen
  have hdrop : cs.flatten.drop (ipc_header_size_ - 0) = p ++ rest := by
    rw [hcs, ipc_header_size_eq]
    exact List.drop_left' hlen
  rw [htake] at h1
  rw [hdrop] at h2
  obtain ⟨cs2, g1, g2, g3⟩ := recvLoop_exact (fun res => decide (res < 0))
    .unableToReceivePayload p.length payload_failed_pos fuel cs1 tl
    { s with incoming := cs1.map RecvEvent.data ++ tl } [] 0 rfl h3
    (by rw [h2]; simp) (by omega)
  have gtake : cs1.flatten.take (p.length - 0) = p := by
    rw [h2]; exact List.take_left' rfl
  have gdrop : cs1.flatten.drop (p.length - 0) = rest := by
    rw [h2]; exact List.drop_left' rfl
  rw [gtake] at g1
  rw [gdrop] at g2
  refine ⟨cs2, ?_, g2, g3⟩
  simp only [Ipc.recv, h1, List.nil_append, decode_encode host p.length t hp ht, g1,
    cstr_append_nul]

/-- Receiving one frame whose payload is shorter than 2^32 - 1 bytes. -/
theorem recv_frame (host : ByteOrder) (fuel t : Nat) (p rest : List Byte)
    (cs : List (List Byte)) (tl : List RecvEvent) (s : Socket)
    (hin : s.incoming = cs.map RecvEvent.data ++ tl)
    (hne : ∀ c ∈ cs, c ≠ [])
    (hcs : cs.flatten = encode_header host p.length t ++ (p ++ rest))
    (hp : p.length < 4294967295) (ht : t < 4294967296)
    (hfuel : 14 ≤ fuel) (hfuel' : p.length ≤ fuel) :
    ∃ cs' : List (List Byte),
      Ipc.recv host fuel s
        = .ok ⟨p.length, t, cstr p⟩ { s with incoming := cs'.map RecvEvent.data ++ tl } ∧
      cs'.flatten = rest ∧ (∀ c ∈ cs', c ≠ []) := by
  obtain ⟨cs', h1, h2, h3⟩ := recv_frame_wrap host fuel t p rest cs tl s hin hne hcs
    (by omega) ht hfuel hfuel'
  have hfit : ¬ (p.length + 1) % 4294967296 ≤ p.length := by omega
  rw [if_neg hfit] at h1
  exact ⟨cs', h1, h2, h3⟩

/-- At the declared size 2^32 - 1 the sum `size + 1` wraps to 0: a call that
receives the whole payload has stored past the reserved storage. -/
theorem recv_overrun_at_max_size (host : ByteOrder) (fuel t : Nat) (p : List Byte)
    (cs : List (List Byte)) (s : Socket)
    (hin : s.incoming = cs.map RecvEvent.data)
    (hne : ∀ c ∈ cs, c ≠ [])
    (hcs : cs.flatten = encode_header host p.length t ++ p)
    (hp : p.length = 4294967295) (ht : t < 4294967296)
    (hfuel : p.length ≤ fuel) :
    Ipc.recv host fuel s = .overrun := by
  obtain ⟨cs', h1, _, _⟩ := recv_frame_wrap host fuel t p [] cs [] s (by simpa using hin)
    hne (by simpa using hcs) (by omega) ht (by omega) hfuel
  have hwrap : (p.length + 1) % 4294967296 ≤ p.length := by omega
  rw [if_pos hwrap] at h1
  exact h1

theorem recv_bad_magic (host : ByteOrder) (fuel : Nat) (h rest : List Byte)
    (cs : List (List Byte)) (tl : List RecvEvent) (s : Socket)
    (hin : s.incoming = cs.map RecvEvent.data ++ tl)
    (hne : ∀ c ∈ cs, c ≠ [])
    (hcs : cs.flatten = h ++ rest)
    (hh : h.length = 14) (hbad : h.take 6 ≠ ipc_magic_)
    (hfuel : 14 ≤ fuel) :
    ∃ cs' : List (List Byte),
      Ipc.recv host fuel s
        = .throw .invalidMagic { s with incoming := cs'.map RecvEvent.data ++ tl } ∧
      cs'.flatten = rest ∧ (∀ c ∈ cs', c ≠ []) := by
  obtain ⟨cs1, h1, h2, h3⟩ := recvLoop_exact (fun res => decide (res ≤ 0))
    .unableToReceiveHeader ipc_header_size_ header_failed_pos fuel cs tl s [] 0 hin hne
    (by rw [hcs, ipc_header_size_eq]; simp [hh]) (by rw [ipc_header_size_eq]; omega)
  have htake : cs.flatten.take (ipc_header_size_ - 0) = h := by
    rw [hcs, ipc_header_size_eq]
    exact List.take_left' hh
  have hdrop : cs.flatten.drop (ipc_header_size_ - 0) = rest := by
    rw [hcs, ipc_header_size_eq]
    exact List.drop_left' hh
  rw [htake] at h1
  rw [hdrop] at h2
  refine ⟨cs1, ?_, h2, h3⟩
  have hd : decode_header host h = .error .invalidMagic := by
    simp [decode_header, ipc_magic_length, hbad]
  simp only [Ipc.recv, h1, List.nil_append, hd]

theorem recvLoop_mono (failed : Int → Bool) (e : Error) (want : Nat) :
    ∀ (fuel fuel' : Nat) (s : Socket) (buf : List Byte) (total : Nat),
      fuel ≤ fuel' →
      recvLoop failed e want fuel s buf total ≠ .running →
      recvLoop failed e want fuel' s buf total = recvLoop failed e want fuel s buf total := by
  intro fuel
  induction fuel with
  | zero =>
    intro fuel' s buf total _ hrun
    by_cases hlt : total < want
    · exact absurd (recvLoop_stall _ _ _ _ _ _ hlt) hrun
    · rw [recvLoop_done _ _ _ _ _ _ _ hlt, recvLoop_done _ _ _ _ _ _ _ hlt]
  | succ fuel ih =>
    intro fuel' s buf total hle hrun
    by_cases hlt : total < want
    · obtain ⟨k, rfl⟩ : ∃ k, fuel' = k + 1 := ⟨fuel' - 1, by omega⟩
      rw [recvLoop_step _ _ _ _ _ _ _ hlt] at hrun ⊢
      rw [recvLoop_step _ _ _ _ _ _ _ hlt]
      by_cases hfail : failed (Posix.recv s (want - total)).1 = true
      · simp [hfail]
      · simp only [hfail, if_false] at hrun ⊢
        exact ih k _ _ _ (by omega) hrun
    · rw [recvLoop_done _ _ _ _ _ _ _ hlt, recvLoop_done _ _ _ _ _ _ _ hlt]

/-- Once the peer has closed with fewer bytes pending than the loop still
wants, a loop that does not treat a zero result as a failure never ends. -/
theorem recvLoop_spin (failed : Int → Bool) (e : Error) (want : Nat)
    (hf : ∀ r : Int, 0 ≤ r → failed r = false) :
    ∀ (fuel : Nat) (cs : List (List Byte)) (s : Socket) (buf : List Byte) (total : Nat),
      s.incoming = cs.map RecvEvent.data →
      cs.flatten.length < want - total →
      recvLoop failed e want fuel s buf total = .running := by
  intro fuel
  induction fuel with
  | zero =>
    intro cs s buf total _ hlen
    exact recvLoop_stall _ _ _ _ _ _ (by omega)
  | succ fuel ih =>
    intro cs s buf total hin hlen
    have hlt : total < want := by omega
    rw [recvLoop_step _ _ _ _ _ _ _ hlt]
    cases cs with
    | nil =>
      have hin' : s.incoming = [] := by simpa using hin
      rw [Posix_recv_closed s _ hin']
      simp only [hf 0 (le_refl 0), Bool.false_eq_true, if_false]
      exact ih [] s _ _ (by simpa using hin') (by simpa using hlen)
    | cons c rest =>
      have hin' : s.incoming = .data c :: rest.map RecvEvent.data := by simpa using hin
      rw [List.flatten_cons, List.length_append] at hlen
      rw [Posix_recv_data s c _ _ hin']
      have htake : c.take (want - total) = c := List.take_of_length_le (by omega)
      have hdrop : c.drop (want - total) = [] := List.drop_of_length_le (by omega)
      simp only [htake, hdrop, List.isEmpty_nil, if_true,
        hf (c.length : Int) (Int.natCast_nonneg _), Bool.false_eq_true, if_false,
        Int.toNat_ofNat]
      exact ih rest _ _ _ rfl (by omega)

theorem payload_failed_nonneg (r : Int) (h : 0 ≤ r) : decide (r < 0) = false := by
  simp; omega

theorem recv_eof_in_payload (host : ByteOrder) (fuel n t : Nat) (q : List Byte)
    (cs : List (List Byte)) (s : Socket)
    (hin : s.incoming = cs.map RecvEvent.data)
    (hne : ∀ c ∈ cs, c ≠ [])
    (hcs : cs.flatten = encode_header host n t ++ q)
    (hn : n < 4294967296) (ht : t < 4294967296) (hq : q.length < n) :
    Ipc.recv host fuel s = .running := by
  have hlen : (encode_header host n t).length = 14 := encode_header_length _ _ _
  obtain ⟨cs1, h1, h2, h3⟩ := recvLoop_exact (fun res => decide (res ≤ 0))
    .unableToReceiveHeader ipc_header_size_ header_failed_pos (fuel + 14) cs [] s [] 0
    (by simpa using hin) hne
    (by rw [hcs, ipc_header_size_eq]; simp [hlen]) (by rw [ipc_header_size_eq]; omega)
  have htake : cs.flatten.take (ipc_header_size_ - 0) = encode_header host n t := by
    rw [hcs, ipc_header_size_eq]
    exact List.take_left' hlen
  have hdrop : cs.flatten.drop (ipc_header_size_ - 0) = q := by
    rw [hcs, ipc_header_size_eq]
    exact List.drop_left' hlen
  rw [htake] at h1
  rw [hdrop] at h2
  by_cases hrun : recvLoop (fun res => decide (res ≤ 0)) .unableToReceiveHeader
      ipc_header_size_ fuel s [] 0 = .running
  · simp only [Ipc.recv, hrun]
  · have hm := recvLoop_mono _ _ _ fuel (fuel + 14) s [] 0 (by omega) hrun
    rw [h1] at hm
    have hspin := recvLoop_spin (fun res => decide (res < 0)) .unableToReceivePayload n
      payload_failed_nonneg fuel cs1
      { s with incoming := cs1.map RecvEvent.data ++ [] } [] 0 (by simp)
      (by rw [h2]; omega)
    simp only [Ipc.recv, ← hm, List.nil_append, decode_encode host n t hn ht, hspin]

theorem Posix_send_no_error (s : Socket) (bytes : List Byte)
    (h : SendEvent.error ∉ s.outgoing) :
    (Posix.send s bytes).1 ≠ -1 ∧ (Posix.send s bytes).2.incoming = s.incoming ∧
      SendEvent.error ∉ (Posix.send s bytes).2.outgoing := by
  unfold Posix.send
  cases hout : s.outgoing with
  | nil =>
    refine ⟨?_, rfl, by simp [hout]⟩
    simp only; omega
  | cons ev rest =>
    rw [hout] at h
    cases ev with
    | error => simp at h
    | accept k =>
      refine ⟨?_, rfl, ?_⟩
      · simp only; omega
      · simp only
        intro hmem
        exact h (List.mem_cons_of_mem _ hmem)

theorem send_request_no_error (host : ByteOrder) (s : Socket) (type : Nat)
    (payload : List Byte) (h : SendEvent.error ∉ s.outgoing) :
    ∃ s' : Socket, Ipc.send_request host s type payload = .ok () s' ∧
      s'.incoming = s.incoming ∧ SendEvent.error ∉ s'.outgoing := by
  obtain ⟨a1, a2, a3⟩ := Posix_send_no_error s (Ipc.send_header host type payload) h
  obtain ⟨b1, b2, b3⟩ := Posix_send_no_error
    (Posix.send s (Ipc.send_header host type payload)).2 payload a3
  refine ⟨(Posix.send (Posix.send s (Ipc.send_header host type payload)).2 payload).2,
    ?_, by rw [b2, a2], b3⟩
  simp only [Ipc.send_request, a1, b1, if_false]

theorem send_eq_recv (host : ByteOrder) (fuel : Nat) (s : Socket) (type : Nat)
    (payload : List Byte) (h : SendEvent.error ∉ s.outgoing) :
    ∃ s' : Socket, Ipc.send host fuel s type payload = Ipc.recv host fuel s' ∧
      s'.incoming = s.incoming ∧ SendEvent.error ∉ s'.outgoing := by
  obtain ⟨s', h1, h2, h3⟩ := send_request_no_error host s type payload h
  refine ⟨s', ?_, h2, h3⟩
  simp only [Ipc.send, h1]

theorem unread_data (s : Socket) (cs : List (List Byte)) :
    ({ s with incoming := cs.map RecvEvent.data ++ [] } : Socket).unread = cs.flatten := by
  simp [Socket.unread, Function.comp_def, RecvEvent.bytes]

theorem flatten_nil_of_nonempty (cs : List (List Byte)) (h : cs.flatten = [])
    (hne : ∀ c ∈ cs, c ≠ []) : cs = [] := by
  cases cs with
  | nil => rfl
  | cons c rest =>
    exfalso
    rw [List.flatten_cons] at h
    exact hne c (by simp) (List.append_eq_nil.mp h).1

/-! ## The claims -/

/-- C1. Header round trip: for every payload length `n` and type `t` below 2^32,
on either byte order, the header that `Ipc::send` builds for them has
`ipc_header_size_` bytes and the header decoding of `Ipc::recv` (magic check,
then the two 4-byte fields) accepts it and yields exactly `(n, t)`. -/
theorem header_round_trip (host : ByteOrder) (n t : Nat)
    (hn : n < 4294967296) (ht : t < 4294967296) :
    (encode_header host n t).length = ipc_header_size_ ∧
      decode_header host (encode_header host n t) = .ok (n, t) :=
  ⟨encode_header_length host n t, decode_encode host n t hn ht⟩

theorem header_round_trip_witness :
    (encode_header .big 18 4294967295).length = ipc_header_size_ ∧
      decode_header .big (encode_header .big 18 4294967295) = .ok (18, 4294967295) :=
  header_round_trip .big 18 4294967295 (by decide) (by decide)

/-- C2, as stated, fails on a big-endian host: the header built for type 1
and a 1-byte payload carries both fields most significant byte first, not
least significant byte first. -/
theorem send_header_big_endian_host :
    Ipc.send_header .big 1 [7] = ipc_magic_ ++ [0, 0, 0, 1] ++ [0, 0, 0, 1] ∧
      Ipc.send_header .big 1 [7] ≠ ipc_magic_ ++ [1, 0, 0, 0] ++ [1, 0, 0, 0] := by
  decide

/-- C2, amended. Bit-exact header layout: for every payload `p` and type `t`
the header that `Ipc::send` builds is exactly 14 bytes long and equals the 6
magic bytes, followed by the length of `p` as 4 bytes in the byte order of the
host, followed by `t` as 4 bytes in the byte order of the host: least
significant byte first on a little-endian host, most significant byte first
on a big-endian host. -/
theorem send_header_layout (host : ByteOrder) (t : Nat) (p : List Byte) :
    (Ipc.send_header host t p).length = 14 ∧
      Ipc.send_header host t p =
        ipc_magic_ ++
          (match host with
            | .little =>
              [Fin.ofNat (p.length % 256), Fin.ofNat (p.length / 256 % 256),
                Fin.ofNat (p.length / 65536 % 256), Fin.ofNat (p.length / 16777216 % 256)]
            | .big =>
              [Fin.ofNat (p.length / 16777216 % 256), Fin.ofNat (p.length / 65536 % 256),
                Fin.ofNat (p.length / 256 % 256), Fin.ofNat (p.length % 256)]) ++
          (match host with
            | .little =>
              [Fin.ofNat (t % 256), Fin.ofNat (t / 256 % 256),
                Fin.ofNat (t / 65536 % 256), Fin.ofNat (t / 16777216 % 256)]
            | .big =>
              [Fin.ofNat (t / 16777216 % 256), Fin.ofNat (t / 65536 % 256),
                Fin.ofNat (t / 256 % 256), Fin.ofNat (t % 256)]) := by
  refine ⟨encode_header_length _ _ _, ?_⟩
  have e : ∀ a b : Nat, a % 256 = b % 256 → (Fin.ofNat a : Byte) = Fin.ofNat b := by
    intro a b h
    apply Fin.ext
    simpa [ofNat_val] using h
  have h1 : ∀ x : Nat, (Fin.ofNat (x % 4294967296 % 4294967296 % 256) : Byte)
      = Fin.ofNat (x % 256) := fun x => e _ _ (by omega)
  have h2 : ∀ x : Nat, (Fin.ofNat (x % 4294967296 % 4294967296 / 256 % 256) : Byte)
      = Fin.ofNat (x / 256 % 256) := fun x => e _ _ (by omega)
  have h3 : ∀ x : Nat, (Fin.ofNat (x % 4294967296 % 4294967296 / 256 / 256 % 256) : Byte)
      = Fin.ofNat (x / 65536 % 256) := fun x => e _ _ (by omega)
  have h4 : ∀ x : Nat,
      (Fin.ofNat (x % 4294967296 % 4294967296 / 256 / 256 / 256 % 256) : Byte)
      = Fin.ofNat (x / 16777216 % 256) := fun x => e _ _ (by omega)
  have g1 : ∀ x : Nat, (Fin.ofNat (x % 4294967296 % 256) : Byte)
      = Fin.ofNat (x % 256) := fun x => e _ _ (by omega)
  have g2 : ∀ x : Nat, (Fin.ofNat (x % 4294967296 / 256 % 256) : Byte)
      = Fin.ofNat (x / 256 % 256) := fun x => e _ _ (by omega)
  have g3 : ∀ x : Nat, (Fin.ofNat (x % 4294967296 / 256 / 256 % 256) : Byte)
      = Fin.ofNat (x / 65536 % 256) := fun x => e _ _ (by omega)
  have g4 : ∀ x : Nat, (Fin.ofNat (x % 4294967296 / 256 / 256 / 256 % 256) : Byte)
      = Fin.ofNat (x / 16777216 % 256) := fun x => e _ _ (by omega)
  cases host
  · simp only [Ipc.send_header, encode_header, memcpy_from_u32, digits256]
    rw [h1, h2, h3, h4, g1, g2, g3, g4]
  · simp only [Ipc.send_header, encode_header, memcpy_from_u32, digits256]
    rw [h1, h2, h3, h4, g1, g2, g3, g4]
    rfl

/-- C3. Magic validation: for every 14-byte header whose first 6 bytes are not
the magic, whatever its other 8 bytes, whatever follows it on the socket and
however the bytes are split into non-empty reads, `Ipc::recv` throws
"Invalid IPC magic", and it leaves every byte behind the header unread. -/
theorem recv_rejects_bad_magic (host : ByteOrder) (fuel : Nat) (h rest : List Byte)
    (cs : List (List Byte)) (s : Socket)
    (hin : s.incoming = cs.map RecvEvent.data)
    (hne : ∀ c ∈ cs, c ≠ [])
    (hcs : cs.flatten = h ++ rest)
    (hh : h.length = 14) (hbad : h.take 6 ≠ ipc_magic_)
    (hfuel : 14 ≤ fuel) :
    ∃ s' : Socket,
      Ipc.recv host fuel s = .throw .invalidMagic s' ∧
      Error.what .invalidMagic = "Invalid IPC magic" ∧
      s'.unread = rest ∧ s'.sent = s.sent := by
  obtain ⟨cs', h1, h2, _⟩ := recv_bad_magic host fuel h rest cs [] s (by simpa using hin)
    hne hcs hh hbad hfuel
  exact ⟨_, h1, rfl, by rw [unread_data, h2], rfl⟩

theorem recv_rejects_bad_magic_witness :
    ∃ s' : Socket,
      Ipc.recv .little 14
          ⟨[.data [99, 108, 111, 115, 101, 45, 115], .data [119, 97, 121, 45, 105, 112, 99, 1, 2]],
            [], []⟩
        = .throw .invalidMagic s' ∧
      Error.what .invalidMagic = "Invalid IPC magic" ∧
      s'.unread = [1, 2] ∧ s'.sent = [] :=
  recv_rejects_bad_magic .little 14 [99, 108, 111, 115, 101, 45, 115, 119, 97, 121, 45, 105, 112, 99]
    [1, 2] [[99, 108, 111, 115, 101, 45, 115], [119, 97, 121, 45, 105, 112, 99, 1, 2]]
    ⟨[.data [99, 108, 111, 115, 101, 45, 115], .data [119, 97, 121, 45, 105, 112, 99, 1, 2]],
      [], []⟩
    rfl (by decide) rfl rfl (by decide) (by decide)

/-- C4, as stated, fails: a payload with a NUL byte comes back cut at it. The
frame of type 7 with the 3-byte payload `A`, NUL, `B`, delivered in one read,
is returned with size 3 and the 1-byte payload `A`. -/
theorem recv_cuts_payload_at_nul :
    Ipc.recv .little 14 ⟨[.data (wire .little 7 [65, 0, 66])], [], []⟩
        = .ok ⟨3, 7, [65]⟩ ⟨[], [], []⟩ ∧
      ([65] : List Byte) ≠ [65, 0, 66] := by
  decide

/-- C4, amended. Frame assembly under short reads: for every type `t` below
2^32, every payload `p` of fewer than 2^32 - 1 bytes and every split of the
wire bytes `header(len p, t) ++ p` into non-empty reads, `Ipc::recv` returns a
response whose size is `len p`, whose type is `t` and whose payload is the
bytes of `p` before its first NUL byte, which is all of `p` when `p` has no NUL
byte; every byte of the frame has been read. -/
theorem recv_assembles_frame (host : ByteOrder) (fuel t : Nat) (p : List Byte)
    (cs : List (List Byte)) (s : Socket)
    (hin : s.incoming = cs.map RecvEvent.data)
    (hne : ∀ c ∈ cs, c ≠ [])
    (hcs : cs.flatten = wire host t p)
    (hp : p.length < 4294967295) (ht : t < 4294967296)
    (hfuel : 14 ≤ fuel) (hfuel' : p.length ≤ fuel) :
    Ipc.recv host fuel s = .ok ⟨p.length, t, cstr p⟩ { s with incoming := [] } ∧
      ((∀ b ∈ p, b ≠ 0) → cstr p = p) := by
  obtain ⟨cs', h1, h2, h3⟩ := recv_frame host fuel t p [] cs [] s (by simpa using hin)
    hne (by simpa [wire] using hcs) hp ht hfuel hfuel'
  have : cs' = [] := flatten_nil_of_nonempty cs' h2 h3
  subst this
  exact ⟨by simpa using h1, cstr_of_no_nul p⟩

theorem recv_assembles_frame_witness :
    Ipc.recv .big 14 ⟨[.data [105], .data [51, 45, 105, 112, 99, 0, 0, 0], .data [2, 0],
        .data [0, 1, 4, 79], .data [75]], [], []⟩
      = .ok ⟨2, 260, cstr [79, 75]⟩ ⟨[], [], []⟩ ∧
      cstr [79, 75] = [79, 75] :=
  have h := recv_assembles_frame .big 14 260 [79, 75]
    [[105], [51, 45, 105, 112, 99, 0, 0, 0], [2, 0], [0, 1, 4, 79], [75]]
    ⟨[.data [105], .data [51, 45, 105, 112, 99, 0, 0, 0], .data [2, 0],
        .data [0, 1, 4, 79], .data [75]], [], []⟩
    rfl (by decide) (by decide) (by decide) (by decide) (by decide) (by decide)
  ⟨h.1, h.2 (by simp)⟩

/-- C5, on the code: when the peer closes after a valid header that declares
`n` payload bytes and fewer than `n` payload bytes, `Ipc::recv` neither throws
nor returns, whatever the budget of `::recv` calls: the payload loop only
tests `res < 0`, the 0 that `::recv` returns at end of stream adds nothing to
`total`, and the loop goes on. -/
theorem recv_spins_on_eof (host : ByteOrder) (fuel n t : Nat) (q : List Byte)
    (cs : List (List Byte)) (s : Socket)
    (hin : s.incoming = cs.map RecvEvent.data)
    (hne : ∀ c ∈ cs, c ≠ [])
    (hcs : cs.flatten = encode_header host n t ++ q)
    (hn : n < 4294967296) (ht : t < 4294967296) (hq : q.length < n) :
    Ipc.recv host fuel s = .running :=
  recv_eof_in_payload host fuel n t q cs s hin hne hcs hn ht hq

theorem recv_spins_on_eof_witness :
    Ipc.recv .little 1000 ⟨[.data (encode_header .little 2 0), .data [91]], [], []⟩
      = .running :=
  recv_spins_on_eof .little 1000 2 0 [91] [encode_header .little 2 0, [91]]
    ⟨[.data (encode_header .little 2 0), .data [91]], [], []⟩
    rfl (by decide) (by decide) (by decide) (by decide) (by decide)

/-- C6, as stated, fails: the acknowledgement payload made of the success
literal, a NUL byte and one more byte is not the literal, yet `Ipc::subscribe`
succeeds on it. -/
theorem subscribe_accepts_literal_then_nul :
    (Ipc.subscribe .little 32
        ⟨⟨[], [], []⟩, ⟨[.data (wire .little 2 (subscribe_success ++ [0, 33]))], [], []⟩⟩
        [91, 93]).isOk = true ∧
      subscribe_success ++ [0, 33] ≠ subscribe_success := by
  decide

/-- C6, amended. Subscription acknowledgement: for every response frame (type
`t`, payload `p` of fewer than 2^32 - 1 bytes) that answers the subscribe
request, `Ipc::subscribe` succeeds if and only if the bytes of `p` before its
first NUL byte are exactly the success literal, and otherwise throws
"Unable to subscribe ipc event". For a payload without NUL bytes this is: if
and only if `p` is the literal. -/
theorem subscribe_ack (host : ByteOrder) (fuel t : Nat) (p payload : List Byte)
    (cs : List (List Byte)) (self : Ipc)
    (hout : SendEvent.error ∉ self.fd_event_.outgoing)
    (hin : self.fd_event_.incoming = cs.map RecvEvent.data)
    (hne : ∀ c ∈ cs, c ≠ [])
    (hcs : cs.flatten = wire host t p)
    (hp : p.length < 4294967295) (ht : t < 4294967296)
    (hfuel : 14 ≤ fuel) (hfuel' : p.length ≤ fuel) :
    ((Ipc.subscribe host fuel self payload).isOk = true ↔ cstr p = subscribe_success) ∧
      (cstr p ≠ subscribe_success →
        (Ipc.subscribe host fuel self payload).thrown = some .unableToSubscribe) ∧
      ((∀ b ∈ p, b ≠ 0) →
        ((Ipc.subscribe host fuel self payload).isOk = true ↔ p = subscribe_success)) := by
  obtain ⟨s', e1, e2, _⟩ := send_eq_recv host fuel self.fd_event_ IPC_SUBSCRIBE payload hout
  obtain ⟨cs', h1, _, _⟩ := recv_frame host fuel t p [] cs [] s'
    (by rw [e2]; simpa using hin) hne (by simpa [wire] using hcs) hp ht hfuel hfuel'
  have key : (Ipc.subscribe host fuel self payload).isOk = true ↔ cstr p = subscribe_success := by
    simp only [Ipc.subscribe, e1, h1]
    by_cases hc : cstr p = subscribe_success
    · simp [hc, Outcome.isOk]
    · simp [hc, Outcome.isOk]
  refine ⟨key, ?_, ?_⟩
  · intro hc
    simp only [Ipc.subscribe, e1, h1]
    simp [hc, Outcome.thrown]
  · intro hnul
    rw [key, cstr_of_no_nul p hnul]

theorem subscribe_ack_witness :
    (Ipc.subscribe .little 32
        ⟨⟨[], [], []⟩, ⟨[.data (wire .little 2 subscribe_success)], [.accept 14], []⟩⟩
        [91, 93]).isOk = true :=
  (subscribe_ack .little 32 2 subscribe_success [91, 93] [wire .little 2 subscribe_success]
    ⟨⟨[], [], []⟩, ⟨[.data (wire .little 2 subscribe_success)], [.accept 14], []⟩⟩
    (by decide) rfl (by decide) rfl (by decide) (by decide) (by decide) (by decide)).1.mpr
    (by decide)

/-- C7, as stated, fails when a reply payload holds a NUL byte: with the
replies (type 0, payload `A`, NUL, `B`) and (type 1, payload `C`) pending, the
first `Ipc::sendCmd` returns the payload `A` alone, not the payload of the
first frame. -/
theorem sendCmd_cuts_reply_at_nul :
    Ipc.sendCmd .little 14
        ⟨⟨[.data (wire .little 0 [65, 0, 66] ++ wire .little 1 [67])], [], []⟩, ⟨[], [], []⟩⟩
        0 [71]
      = .ok ⟨3, 0, [65]⟩
          ⟨[.data (wire .little 1 [67])], [], Ipc.send_header .little 0 [71] ++ [71]⟩ ∧
      ([65] : List Byte) ≠ [65, 0, 66] := by
  decide

/-- C7, amended. Positional correlation: when the bytes pending on the command
socket are two frames `F1 = (t1, p1)` then `F2 = (t2, p2)` with payloads of
fewer than 2^32 - 1 bytes, split into non-empty reads in any way, and no
`::send` fails, two sequential
`Ipc::sendCmd` calls (any two requests) return, in this order, size, type and
payload of `F1` and of `F2`, the payload being the bytes before the first NUL
byte (the whole payload when it has none). The first call reads exactly the
14 + `len p1` bytes of `F1` and leaves the bytes of `F2` unread; the second
reads the rest. -/
theorem sendCmd_positional (host : ByteOrder) (fuel : Nat) (self : Ipc)
    (type1 : Nat) (payload1 : List Byte) (type2 : Nat) (payload2 : List Byte)
    (t1 : Nat) (p1 : List Byte) (t2 : Nat) (p2 : List Byte) (cs : List (List Byte))
    (hout : SendEvent.error ∉ self.fd_.outgoing)
    (hin : self.fd_.incoming = cs.map RecvEvent.data)
    (hne : ∀ c ∈ cs, c ≠ [])
    (hcs : cs.flatten = wire host t1 p1 ++ wire host t2 p2)
    (hp1 : p1.length < 4294967295) (ht1 : t1 < 4294967296)
    (hp2 : p2.length < 4294967295) (ht2 : t2 < 4294967296)
    (hfuel : 14 ≤ fuel) (hfuel1 : p1.length ≤ fuel) (hfuel2 : p2.length ≤ fuel) :
    ∃ s1 s2 : Socket,
      Ipc.sendCmd host fuel self type1 payload1 = .ok ⟨p1.length, t1, cstr p1⟩ s1 ∧
      s1.unread = wire host t2 p2 ∧
      Ipc.sendCmd host fuel { self with fd_ := s1 } type2 payload2
        = .ok ⟨p2.length, t2, cstr p2⟩ s2 ∧
      s2.unread = [] ∧
      ((∀ b ∈ p1, b ≠ 0) → cstr p1 = p1) ∧ ((∀ b ∈ p2, b ≠ 0) → cstr p2 = p2) := by
  obtain ⟨a, a1, a2, a3⟩ := send_eq_recv host fuel self.fd_ type1 payload1 hout
  obtain ⟨cs1, b1, b2, b3⟩ := recv_frame host fuel t1 p1 (wire host t2 p2) cs [] a
    (by rw [a2]; simpa using hin) hne (by simpa [wire] using hcs) hp1 ht1 hfuel hfuel1
  obtain ⟨c, c1, c2, _⟩ := send_eq_recv host fuel
    { a with incoming := cs1.map RecvEvent.data ++ [] } type2 payload2 a3
  obtain ⟨cs2, d1, d2, _⟩ := recv_frame host fuel t2 p2 [] cs1 [] c
    (by rw [c2]) b3 (by simpa [wire] using b2) hp2 ht2 hfuel hfuel2
  refine ⟨{ a with incoming := cs1.map RecvEvent.data ++ [] },
    { c with incoming := cs2.map RecvEvent.data ++ [] },
    ?_, ?_, ?_, ?_, cstr_of_no_nul p1, cstr_of_no_nul p2⟩
  · simp only [Ipc.sendCmd]
    rw [a1, b1]
  · rw [unread_data, b2]
  · simp only [Ipc.sendCmd]
    rw [c1, d1]
  · rw [unread_data, d2]

theorem sendCmd_positional_witness :
    ∃ s1 s2 : Socket,
      Ipc.sendCmd .little 18
          ⟨⟨[.data (wire .little 0 reply18), .data (wire .little 1 [79, 75])], [], []⟩,
            ⟨[], [], []⟩⟩ 0 [71, 69, 84]
        = .ok ⟨18, 0, cstr reply18⟩ s1 ∧
      s1.unread = wire .little 1 [79, 75] ∧
      Ipc.sendCmd .little 18
          { (⟨⟨[.data (wire .little 0 reply18), .data (wire .little 1 [79, 75])], [], []⟩,
            ⟨[], [], []⟩⟩ : Ipc) with fd_ := s1 } 1 []
        = .ok ⟨2, 1, cstr [79, 75]⟩ s2 ∧
      s2.unread = [] ∧
      cstr reply18 = reply18 ∧ cstr [79, 75] = [79, 75] :=
  have ⟨s1, s2, h1, h2, h3, h4, h5, h6⟩ := sendCmd_positional .little 18
    ⟨⟨[.data (wire .little 0 reply18), .data (wire .little 1 [79, 75])], [], []⟩, ⟨[], [], []⟩⟩
    0 [71, 69, 84] 1 [] 0 reply18 1 [79, 75] [wire .little 0 reply18, wire .little 1 [79, 75]]
    (by decide) rfl (by decide) (by decide) (by decide) (by decide) (by decide) (by decide)
    (by decide) (by decide) (by decide)
  ⟨s1, s2, h1, h2, h3, h4, h5 (by simp [reply18]), h6 (by simp)⟩

/-- C8, as stated, fails: when the first `::send` takes only the first of the
14 header bytes (a non-empty part, no error), `Ipc::send` goes on to the
payload; what has been transmitted when the receive starts is that one byte
and the payload, not the header followed by the payload. -/
theorem send_drops_rest_of_short_write :
    Ipc.send_request .little ⟨[], [.accept 1], []⟩ 0 [7, 8]
        = .ok () ⟨[], [], [105, 7, 8]⟩ ∧
      ([105, 7, 8] : List Byte) ≠ Ipc.send_header .little 0 [7, 8] ++ [7, 8] := by
  decide

/-- C8, amended. The method `Ipc::send` issues one `::send` for the 14 header bytes and
one for the payload and does not look at how many bytes a call took: when the
two calls take at most `a` and at most `b` bytes, what has been transmitted
when the receive starts is the first `a` header bytes followed by the first
`b` payload bytes. When both calls take everything offered, that is all
header bytes followed by all payload bytes, in this order. -/
theorem send_transmits (host : ByteOrder) (fuel : Nat) (s : Socket) (type : Nat)
    (payload : List Byte) (a b : Nat) (rest : List SendEvent)
    (hout : s.outgoing = .accept a :: .accept b :: rest) :
    Ipc.send host fuel s type payload =
        Ipc.recv host fuel
          { s with
            outgoing := rest
            sent := s.sent ++ (Ipc.send_header host type payload).take a ++ payload.take b } ∧
      (14 ≤ a → payload.length ≤ b →
        (Ipc.send_header host type payload).take a ++ payload.take b
          = Ipc.send_header host type payload ++ payload) := by
  constructor
  · have n1 : (((Ipc.send_header host type payload).take a).length : Int) ≠ -1 := by omega
    have n2 : (((payload.take b).length : Nat) : Int) ≠ -1 := by omega
    simp only [Ipc.send, Ipc.send_request, Posix.send, hout, n1, n2, if_false]
  · intro ha hb
    have hl : (Ipc.send_header host type payload).length = 14 := encode_header_length _ _ _
    rw [List.take_of_length_le (by omega), List.take_of_length_le hb]

theorem send_transmits_witness :
    Ipc.send .little 20 ⟨[], [.accept 14, .accept 5], [1]⟩ 0 [7, 8] =
        Ipc.recv .little 20
          { (⟨[], [.accept 14, .accept 5], [1]⟩ : Socket) with
            outgoing := []
            sent := [1] ++ (Ipc.send_header .little 0 [7, 8]).take 14 ++ List.take 5 [7, 8] } ∧
      (Ipc.send_header .little 0 [7, 8]).take 14 ++ List.take 5 [7, 8]
        = Ipc.send_header .little 0 [7, 8] ++ [7, 8] :=
  have h := send_transmits .little 20 ⟨[], [.accept 14, .accept 5], [1]⟩ 0 [7, 8] 14 5 [] rfl
  ⟨h.1, h.2 (by decide) (by decide)⟩

theorem readLine_length_pos (n : Nat) (c : Byte) (cs : List Byte) :
    0 < (readLine (n + 1) (c :: cs)).length := by
  simp only [readLine]
  split <;> simp

/-- The budget of `fgetsLoop` is never what ends it: any two budgets of at
least the stream length give the same result. -/
theorem fgetsLoop_budget :
    ∀ (fuel fuel' : Nat) (buf stream str_buf : List Byte),
      stream.length ≤ fuel → stream.length ≤ fuel' →
      fgetsLoop fuel buf stream str_buf = fgetsLoop fuel' buf stream str_buf := by
  intro fuel
  induction fuel with
  | zero =>
    intro fuel' buf stream str_buf h _
    have hs : stream = [] := List.length_eq_zero.mp (by omega)
    subst hs
    cases fuel' <;> simp [fgetsLoop, fgets]
  | succ fuel ih =>
    intro fuel' buf stream str_buf h h'
    cases stream with
    | nil => cases fuel' <;> simp [fgetsLoop, fgets]
    | cons c cs =>
      cases fuel' with
      | zero => simp at h'
      | succ fuel' =>
        have hpos : 0 < (readLine (512 - 1) (c :: cs)).length := readLine_length_pos 510 c cs
        simp only [fgetsLoop, fgets]
        apply ih
        · simp only [List.length_drop, List.length_cons] at h ⊢; omega
        · simp only [List.length_drop, List.length_cons] at h' ⊢; omega

set_option maxRecDepth 100000 in
/-- The fallback of `Ipc::getSocketPath` on a one-line output: each `fgets`
round appends the whole 512-byte buffer, so the result is the line, newline
included, followed by the NUL bytes of the buffer. -/
theorem getSocketPath_fallback_example :
    Ipc.getSocketPath none (some [47, 116, 109, 112, 47, 115, 10])
      = .ok ([47, 116, 109, 112, 47, 115, 10] ++ List.replicate 505 0) := by
  rfl

/-- C9, as stated, fails: with the variable set to the empty string and the
discovery command printing `/tmp/s` and a newline, `Ipc::getSocketPath` returns
the empty string, not `/tmp/s`. -/
theorem getSocketPath_empty_env :
    Ipc.getSocketPath (some []) (some [47, 116, 109, 112, 47, 115, 10]) = .ok [] ∧
      ([] : List Byte) ≠ strip_trailing_newline [47, 116, 109, 112, 47, 115, 10] := by
  constructor
  · rfl
  · decide

/-- C9, amended. Whenever the socket-path environment variable is set, be its
value empty or not, `Ipc::getSocketPath` returns the value verbatim, whatever
the discovery command would print; the discovery command is consulted only
when the variable is not set. -/
theorem getSocketPath_env_verbatim (v : List Byte) (popen_out : Option (List Byte))
    (hv : ∀ b ∈ v, b ≠ 0) :
    Ipc.getSocketPath (some v) popen_out = .ok v := by
  simp only [Ipc.getSocketPath, cstr_append_nul, cstr_of_no_nul v hv]

theorem getSocketPath_env_verbatim_witness :
    Ipc.getSocketPath (some [47, 120]) (some [47, 116, 109, 112, 47, 115, 10])
      = .ok [47, 120] :=
  getSocketPath_env_verbatim [47, 120] (some [47, 116, 109, 112, 47, 115, 10])
    (by simp)

theorem strncpy_long (dest path : List Byte) (m : Nat)
    (hnul : ∀ b ∈ path, b ≠ 0) (hlong : m ≤ path.length) :
    strncpy dest (path ++ [0]) m = path.take m ++ dest.drop m := by
  simp only [strncpy, cstr_append_nul, cstr_of_no_nul path hnul]
  have : (path.take m).length = m := by simp; omega
  simp [this]

theorem open_sun_path_long (n : Nat) (path : List Byte) (hn : 0 < n)
    (hnul : ∀ b ∈ path, b ≠ 0) (hlong : n - 1 ≤ path.length) :
    Ipc.open_sun_path n path = path.take (n - 1) ++ [0] := by
  simp only [Ipc.open_sun_path]
  rw [strncpy_long _ path (n - 1) hnul (by omega)]
  have hd : (List.replicate n (0 : Byte)).drop (n - 1) = [0] := by
    rw [List.drop_replicate]
    have : n - (n - 1) = 1 := by omega
    rw [this]; rfl
  rw [hd]
  have hl : (path.take (n - 1)).length = n - 1 := by simp; omega
  rw [List.set_append_right _ _ (by omega), hl]
  simp

set_option maxRecDepth 100000 in
/-- C10, as stated, fails: on a platform whose `sun_path` holds 108 bytes, with
a socket listening at the path of 107 letters `a`, `Ipc::open` of the path of
108 letters `a` does not fail: it connects to the 107-byte path. -/
theorem open_connects_to_truncated_path :
    Ipc.open 108
        ⟨3, fun addr => if addr = List.replicate 107 97 ++ [0] then 0 else -1⟩
        (List.replicate 108 97) = .ok 3 ∧
      Ipc.open_sun_path 108 (List.replicate 108 97) = List.replicate 107 97 ++ [0] := by
  constructor
  · rfl
  · decide

/-- C10, amended. Over-long socket path: for every socket path (without NUL
bytes) longer than `sizeof(sun_path) - 1`, `Ipc::open` passes to `::connect`
the first `sizeof(sun_path) - 1` bytes of the path followed by a NUL, and
behaves exactly as on that truncated path: it fails with
"Unable to connect to Sway" when the connect to the truncated path fails and
returns the descriptor when it succeeds. -/
theorem open_truncates_long_path (n : Nat) (k : Kernel) (path : List Byte) (hn : 0 < n)
    (hnul : ∀ b ∈ path, b ≠ 0) (hlong : n - 1 < path.length) (hsock : k.socket ≠ -1) :
    Ipc.open_sun_path n path = path.take (n - 1) ++ [0] ∧
      Ipc.open n k path = Ipc.open n k (path.take (n - 1)) ∧
      Ipc.open n k path =
        (if k.connect (path.take (n - 1) ++ [0]) = -1 then .error .unableToConnect
          else .ok k.socket) := by
  have h1 := open_sun_path_long n path hn hnul (by omega)
  have h2 : Ipc.open_sun_path n (path.take (n - 1)) = path.take (n - 1) ++ [0] := by
    rw [open_sun_path_long n (path.take (n - 1)) hn
      (fun b hb => hnul b (List.mem_of_mem_take hb)) (by simp; omega)]
    simp
  refine ⟨h1, ?_, ?_⟩
  · simp only [Ipc.open, h1, h2]
  · simp only [Ipc.open, h1, hsock, if_false]

theorem open_truncates_long_path_witness :
    Ipc.open_sun_path 8 [47, 116, 109, 112, 47, 115, 111, 99, 107]
        = [47, 116, 109, 112, 47, 115, 111, 0] ∧
      Ipc.open 8 ⟨3, fun addr => if addr = [47, 116, 109, 112, 47, 115, 111, 0] then 0 else -1⟩
          [47, 116, 109, 112, 47, 115, 111, 99, 107]
        = Ipc.open 8
          ⟨3, fun addr => if addr = [47, 116, 109, 112, 47, 115, 111, 0] then 0 else -1⟩
          [47, 116, 109, 112, 47, 115, 111] ∧
      Ipc.open 8 ⟨3, fun addr => if addr = [47, 116, 109, 112, 47, 115, 111, 0] then 0 else -1⟩
          [47, 116, 109, 112, 47, 115, 111, 99, 107]
        = .ok 3 :=
  open_truncates_long_path 8
    ⟨3, fun addr => if addr = [47, 116, 109, 112, 47, 115, 111, 0] then 0 else -1⟩
    [47, 116, 109, 112, 47, 115, 111, 99, 107] (by decide) (by simp) (by decide) (by decide)

end Waybar
